import Mathlib

/-!
# Verification of the Gantt editor's storage codec, domain store and view-model projector

Shallow embedding of `src/Gantt.tsx` (cauldnclark/gantt-mari).

JavaScript runtime values that flow through the storage codec are modelled by the
inductive `Value` below: JSON primitives, `Date` objects (identified by their
millisecond time value, which is what deep equality of two `Date`s compares),
arrays, and plain objects (ordered association lists of own enumerable string
keys, as `Object.entries` / the `in` operator see them).

The text layer of `localStorage` is modelled by the parse tree of the stored
JSON text: `JSON.stringify` on a date-free tree and `JSON.parse` are mutually
inverse, so composing the codec's two sides at the tree level is exactly the
composite the program runs.  `Date.prototype.toISOString` is modelled as an
injective rendering of the time value with `String.toInt?` as its left inverse
(the real ISO-8601 text is likewise injective in the time value and re-parsed
exactly by `new Date`).
-/

/-- A JavaScript runtime value as seen by the storage codec: JSON primitives,
`Date` objects (carrying their millisecond time value), arrays, and plain
objects as ordered key/value association lists. -/
inductive Value where
  | null : Value
  | bool (b : Bool) : Value
  | num (n : Int) : Value
  | str (s : String) : Value
  | date (ms : Int) : Value
  | arr (elems : List Value) : Value
  | obj (fields : List (String × Value)) : Value
deriving Repr

/-- Models `Date.prototype.toISOString()` : an injective rendering of the
millisecond time value, re-parsed exactly by `new Date` (modelled by
`parseIso`). -/
def isoOfTime (t : Int) : String := toString t

/-- Models `new Date(s)` on a string produced by `isoOfTime`; strings that are
not such a rendering are modelled coarsely as time 0 (no theorem below
evaluates that branch). -/
def parseIso (s : String) : Int := (s.toInt?).getD 0

/-- ECMAScript `SerializeJSONProperty` step 2: before the replacer runs, a value
with a callable `toJSON` method is replaced by `toJSON`'s result.
`Date.prototype.toJSON` returns the ISO string, so every `Date` node becomes a
plain string here.  All other `Value` constructors have no `toJSON`. -/
def toJSONStep : Value → Value
  | .date t => .str (isoOfTime t)
  | v => v

/-- The replacer function literal of `serializeForStorage` (Gantt.tsx 70-75):
`if (value instanceof Date) return { __type: "Date", value: value.toISOString() };
return value;` -/
def replacer : Value → Value
  | .date t => .obj [("__type", .str "Date"), ("value", .str (isoOfTime t))]
  | v => v

/-- One `SerializeJSONProperty` visit: `toJSON` first (step 2), then the
replacer (step 3).  Because `toJSONStep` has already turned a `Date` into a
string, the replacer's `instanceof Date` test is false at every node. -/
def serStep (v : Value) : Value := replacer (toJSONStep v)

theorem serStep_eq (v : Value) :
    serStep v = match v with
                | .date t => .str (isoOfTime t)
                | w => w := by
  cases v <;> rfl

mutual

/-- `serializeForStorage` (Gantt.tsx 69-76) as a tree transformer:
`JSON.stringify(data, replacer)` applies `serStep` to each node and recurses
into the children of the result.  `serStep` sends a `Date` to a string leaf and
fixes every other constructor (`serStep_eq`), so the recursion visits exactly
the original children, giving this structural form.  In particular the tagged
wrapper of `replacer` is never emitted: `Date.prototype.toJSON` runs before the
replacer, so the replacer's `instanceof Date` branch is dead code. -/
def serializeForStorage : Value → Value
  | .date t => serStep (.date t)
  | .arr elems => .arr (serializeList elems)
  | .obj fields => .obj (serializeFields fields)
  | v => serStep v

/-- The stringify walk over the elements of an array. -/
def serializeList : List Value → List Value
  | [] => []
  | x :: xs => serializeForStorage x :: serializeList xs

/-- The stringify walk over the entries of an object. -/
def serializeFields : List (String × Value) → List (String × Value)
  | [] => []
  | kv :: rest => (kv.1, serializeForStorage kv.2) :: serializeFields rest

end

/-- JavaScript `String(x)` coercion, exact on primitives (the only constructor
any theorem below evaluates is `.str`; composite values are modelled coarsely
by their `Repr`-irrelevant placeholders). -/
def jsToString : Value → String
  | .str s => s
  | .num n => toString n
  | .bool b => if b then "true" else "false"
  | .null => "null"
  | .date t => isoOfTime t
  | .arr _ => ""
  | .obj _ => "[object Object]"

/-- The `convertDates` date-marker test (Gantt.tsx 88-94):
`typeof obj === "object" && obj !== null && "__type" in obj &&
obj.__type === "Date" && "value" in obj`, on a plain object with the given
fields.  Property lookup takes the first binding of the key. -/
def isDateTag (fields : List (String × Value)) : Bool :=
  match fields.lookup "__type" with
  | some (.str s) => s = "Date" && (fields.lookup "value").isSome
  | _ => false

mutual

/-- `convertDates` (Gantt.tsx 82-113), the recursive walk of
`deserializeFromStorage`:
* `null`/`undefined` are returned unchanged (line 83-85);
* a non-null object carrying the date marker becomes
  `new Date(String(obj.value))` (lines 88-96) — only a plain object can carry
  the marker, since arrays and `Date` instances have no `__type` property;
* an array maps the walk over its elements (lines 99-101);
* any other object maps the walk over its `Object.entries` (lines 104-110) —
  note a native `Date` instance reaches this branch (it is `typeof "object"`,
  has no `__type` property and is not an array) and its `Object.entries` is
  empty, so it comes back as the empty plain object;
* primitives are returned unchanged (line 112). -/
def convertDates : Value → Value
  | .null => .null
  | .obj fields =>
      if isDateTag fields then
        .date (parseIso (jsToString (((fields.lookup "value")).getD .null)))
      else
        .obj (convertFields fields)
  | .arr elems => .arr (convertList elems)
  | .date _ => .obj []
  | v => v

/-- The `convertDates` walk over the elements of an array. -/
def convertList : List Value → List Value
  | [] => []
  | x :: xs => convertDates x :: convertList xs

/-- The `convertDates` walk over the entries of an object. -/
def convertFields : List (String × Value) → List (String × Value)
  | [] => []
  | kv :: rest => (kv.1, convertDates kv.2) :: convertFields rest

end

/-- `deserializeFromStorage` (Gantt.tsx 78-116) at the tree level: `JSON.parse`
of the stored text yields the parse tree, which `convertDates` then walks. -/
def deserializeFromStorage (parsed : Value) : Value := convertDates parsed

/-- `loadFromStorage` (Gantt.tsx 118-128).  `getItem` models
`localStorage.getItem` (`none` = key absent), `parse` models `JSON.parse`
(`none` = the parse threw, which the surrounding `try`/`catch` turns into the
default).  The empty string is falsy, so `if (stored)` skips it.  The function
is total: every path returns a value, no error escapes to the caller. -/
def loadFromStorage (parse : String → Option Value)
    (getItem : String → Option String) (key : String) (defaultValue : Value) :
    Value :=
  match getItem key with
  | some text =>
      if text ≠ "" then
        match parse text with
        | some parsed => deserializeFromStorage parsed
        | none => defaultValue
      else defaultValue
  | none => defaultValue

/-! ## Domain entities (Gantt.tsx 34-66) -/

/-- `Rank` (Gantt.tsx 34-37). -/
structure Rank where
  id : String
  name : String
deriving Repr, DecidableEq

/-- `RankPlan` (Gantt.tsx 39-43). -/
structure RankPlan where
  id : String
  name : String
  rankId : String
deriving Repr, DecidableEq

/-- The two variants of `Assignment.type` (Gantt.tsx 48). -/
inductive AssignmentType where
  | main : AssignmentType
  | reliever : AssignmentType
deriving Repr, DecidableEq

/-- `Assignment` (Gantt.tsx 45-54).  Dates are carried as their millisecond
time values (`Date.prototype.getTime`); optional fields are `Option`. -/
structure Assignment where
  id : String
  name : Option String
  type : AssignmentType
  planStartDate : Int
  planEndDate : Int
  actualStartDate : Option Int
  actualEndDate : Option Int
  rankPlanId : String
deriving Repr, DecidableEq

/-- A timeline marker (Gantt.tsx 60-65). -/
structure Marker where
  id : String
  date : Int
  label : String
  className : Option String
deriving Repr, DecidableEq

/-- `GanttStatus` as used here (Gantt.tsx 234-238, 651-655). -/
structure GanttStatus where
  id : String
  name : String
  color : String
deriving Repr, DecidableEq

/-- `GanttFeature` as used here (Gantt.tsx 241-249, 628-656): identifier,
display name, start/end dates (millisecond time values) and a status. -/
structure GanttFeature where
  id : String
  name : String
  startAt : Int
  endAt : Int
  status : GanttStatus
deriving Repr, DecidableEq

/-! ## Grouping (lodash `groupBy`, used at Gantt.tsx 251-254) -/

/-- One step of lodash `groupBy`'s iteration: push `x` onto the group keyed
`k`, creating the group at the end (JS object insertion order) when the key is
new. -/
def addToGroup (k : String) (x : α) :
    List (String × List α) → List (String × List α)
  | [] => [(k, [x])]
  | (k', ys) :: rest =>
      if k = k' then (k', ys ++ [x]) :: rest else (k', ys) :: addToGroup k x rest

/-- lodash `groupBy(collection, iteratee)`: iterate the list left to right,
pushing each element onto the group keyed by its iteratee value.  The result is
a JS object, i.e. an ordered association list whose keys appear in
first-encounter order. -/
def groupByKey (f : α → String) (l : List α) : List (String × List α) :=
  l.foldl (fun acc x => addToGroup (f x) x acc) []

/-- `rankPlansByRank` (Gantt.tsx 252): `groupBy(rankPlans, "rankId")`. -/
def rankPlansByRank (rankPlans : List RankPlan) : List (String × List RankPlan) :=
  groupByKey (fun rp => rp.rankId) rankPlans

/-- `assignmentsByRankPlan` (Gantt.tsx 254): `groupBy(assignments, "rankPlanId")`. -/
def assignmentsByRankPlan (assignments : List Assignment) :
    List (String × List Assignment) :=
  groupByKey (fun a => a.rankPlanId) assignments

/-! ## View-model projection (Gantt.tsx 234-249, 626-656) -/

/-- `Math.min(...xs)` on a non-empty spread (the empty case, which would be
`Infinity` in JS, is never reached: the caller guards on `length > 0`; it is
given an arbitrary value here). -/
def jsMathMin : List Int → Int
  | [] => 0
  | x :: xs => xs.foldl min x

/-- `Math.max(...xs)` on a non-empty spread, as `jsMathMin`. -/
def jsMathMax : List Int → Int
  | [] => 0
  | x :: xs => xs.foldl max x

/-- `getAssignmentStatus` (Gantt.tsx 234-238). -/
def getAssignmentStatus : AssignmentType → GanttStatus
  | .main => { id := "main", name := "Main", color := "#3B82F6" }
  | .reliever => { id := "reliever", name := "Reliever", color := "#10B981" }

/-- `assignmentToFeature` (Gantt.tsx 241-249); `name || "Unassigned"` falls
back on an absent or empty name. -/
def assignmentToFeature (assignment : Assignment) : GanttFeature :=
  { id := assignment.id
    name := match assignment.name with
            | some n => if n = "" then "Unassigned" else n
            | none => "Unassigned"
    startAt := assignment.planStartDate
    endAt := assignment.planEndDate
    status := getAssignmentStatus assignment.type }

/-- The `representativeFeature` built per rank plan in the sidebar
(Gantt.tsx 626-656): start is `Math.min` of the plan's assignments'
`planStartDate` times when there is at least one assignment, else `today`
(`new Date()` at projection); end is `Math.max` of `planEndDate` likewise. -/
def representativeFeature (rankPlan : RankPlan)
    (planAssignments : List Assignment) (today : Int) : GanttFeature :=
  { id := rankPlan.id
    name := rankPlan.name
    startAt :=
      if planAssignments.length > 0 then
        jsMathMin (planAssignments.map (fun a => a.planStartDate))
      else today
    endAt :=
      if planAssignments.length > 0 then
        jsMathMax (planAssignments.map (fun a => a.planEndDate))
      else today
    status := { id := "default", name := "Default", color := "#6B7280" } }

/-! ## Store mutation handlers (Gantt.tsx 293-364) -/

/-- The form payload of `handleSaveRank`: `Omit<Rank, "id">`. -/
structure RankData where
  name : String
deriving Repr, DecidableEq

/-- The editing branch of `handleSaveRank` (Gantt.tsx 294-297):
`prev.map((r) => (r.id === editingRank.id ? { ...r, ...rankData } : r))`. -/
def handleSaveRankEditing (editingRankId : String) (rankData : RankData)
    (prev : List Rank) : List Rank :=
  prev.map (fun r =>
    if r.id = editingRankId then { id := r.id, name := rankData.name } else r)

/-- The form payload of `handleSaveRankPlan`: `Omit<RankPlan, "id">`. -/
structure RankPlanData where
  name : String
  rankId : String
deriving Repr, DecidableEq

/-- The editing branch of `handleSaveRankPlan` (Gantt.tsx 316-321). -/
def handleSaveRankPlanEditing (editingRankPlanId : String)
    (rankPlanData : RankPlanData) (prev : List RankPlan) : List RankPlan :=
  prev.map (fun rp =>
    if rp.id = editingRankPlanId then
      { id := rp.id, name := rankPlanData.name, rankId := rankPlanData.rankId }
    else rp)

/-- The form payload of `handleSaveAssignment`: `Omit<Assignment, "id">`. -/
structure AssignmentData where
  name : Option String
  type : AssignmentType
  planStartDate : Int
  planEndDate : Int
  actualStartDate : Option Int
  actualEndDate : Option Int
  rankPlanId : String
deriving Repr, DecidableEq

/-- The editing branch of `handleSaveAssignment` (Gantt.tsx 341-346):
`prev.map((a) => (a.id === editingAssignment.id ? { ...a, ...assignmentData } : a))`. -/
def handleSaveAssignmentEditing (editingAssignmentId : String)
    (assignmentData : AssignmentData) (prev : List Assignment) :
    List Assignment :=
  prev.map (fun a =>
    if a.id = editingAssignmentId then
      { id := a.id
        name := assignmentData.name
        type := assignmentData.type
        planStartDate := assignmentData.planStartDate
        planEndDate := assignmentData.planEndDate
        actualStartDate := assignmentData.actualStartDate
        actualEndDate := assignmentData.actualEndDate
        rankPlanId := assignmentData.rankPlanId }
    else a)

/-- `handleDeleteAssignment` (Gantt.tsx 362-364):
`prev.filter((a) => a.id !== id)`. -/
def handleDeleteAssignment (id : String) (prev : List Assignment) :
    List Assignment :=
  prev.filter (fun a => a.id != id)

/-! ## Application state, clear command and persistence effects
(Gantt.tsx 145-199, 217-231, 366-381) -/

/-- The JS value a `Rank` presents to `JSON.stringify`. -/
def rankToValue (r : Rank) : Value :=
  .obj [("id", .str r.id), ("name", .str r.name)]

/-- The JS value a `RankPlan` presents to `JSON.stringify`. -/
def rankPlanToValue (rp : RankPlan) : Value :=
  .obj [("id", .str rp.id), ("name", .str rp.name), ("rankId", .str rp.rankId)]

/-- The JS value of `Assignment.type`. -/
def assignmentTypeToValue : AssignmentType → Value
  | .main => .str "main"
  | .reliever => .str "reliever"

/-- The JS value an `Assignment` presents to `JSON.stringify` (absent optional
fields are dropped by `JSON.stringify`, so they are absent keys here). -/
def assignmentToValue (a : Assignment) : Value :=
  .obj
    ([("id", .str a.id)]
      ++ (match a.name with | some n => [("name", .str n)] | none => [])
      ++ [("type", assignmentTypeToValue a.type),
          ("planStartDate", .date a.planStartDate),
          ("planEndDate", .date a.planEndDate)]
      ++ (match a.actualStartDate with
          | some d => [("actualStartDate", .date d)] | none => [])
      ++ (match a.actualEndDate with
          | some d => [("actualEndDate", .date d)] | none => [])
      ++ [("rankPlanId", .str a.rankPlanId)])

/-- The JS value a `Marker` presents to `JSON.stringify`. -/
def markerToValue (m : Marker) : Value :=
  .obj
    ([("id", .str m.id), ("date", .date m.date), ("label", .str m.label)]
      ++ (match m.className with
          | some c => [("className", .str c)] | none => []))

/-- The component state plus the persisted `localStorage` entries (stored text
modelled by its parse tree; `none` = entry absent). -/
structure AppState where
  storage : String → Option Value
  ranks : List Rank
  rankPlans : List RankPlan
  assignments : List Assignment
  markers : List Marker

/-- `localStorage.removeItem key` on the storage map. -/
def removeItem (key : String) (store : String → Option Value) :
    String → Option Value :=
  fun k => if k = key then none else store k

/-- `saveToStorage` (Gantt.tsx 130-136) on the storage map: store the
serialized value under the key. -/
def setItem (key : String) (v : Value) (store : String → Option Value) :
    String → Option Value :=
  fun k => if k = key then some (serializeForStorage v) else store k

/-- `handleClearStorage` (Gantt.tsx 366-381): when the user confirms, remove
the four persisted entries and reset the four collections to empty; otherwise
do nothing. -/
def handleClearStorage (confirmed : Bool) (s : AppState) : AppState :=
  if confirmed then
    { storage :=
        removeItem "gantt-markers"
          (removeItem "gantt-assignments"
            (removeItem "gantt-rankPlans"
              (removeItem "gantt-ranks" s.storage)))
      ranks := []
      rankPlans := []
      assignments := []
      markers := [] }
  else s

/-- The four persistence effects (Gantt.tsx 217-231): after any render whose
state changed, each collection is mirrored to its `localStorage` entry with
`saveToStorage`.  React runs these on mount and after every state update, so
they follow every state-changing command, including the clear command. -/
def persistenceEffects (s : AppState) : AppState :=
  { s with
    storage :=
      setItem "gantt-markers" (.arr (s.markers.map markerToValue))
        (setItem "gantt-assignments" (.arr (s.assignments.map assignmentToValue))
          (setItem "gantt-rankPlans" (.arr (s.rankPlans.map rankPlanToValue))
            (setItem "gantt-ranks" (.arr (s.ranks.map rankToValue))
              s.storage))) }

/-! ## Startup initialization (Gantt.tsx 145-199)

Each collection's initializer calls `loadFromStorage(key, initial)` — whose
result is the decoded snapshot on success and the supplied `initial` on a
missing or corrupt entry — and then keeps the result only when it is
non-empty, falling back to `initial` otherwise.  The decoded snapshot is
modelled by `Option (List α)` (`none` = entry absent or decode failed), and
the per-element date re-coercion the assignments and markers initializers
apply to a non-empty stored list is the `coerce` argument. -/

/-- The `ranks` / `rankPlans` initializer shape (Gantt.tsx 145-155):
`stored.length > 0 ? stored : initial`. -/
def collectionInit (stored : Option (List α)) (initial : List α) : List α :=
  let s := stored.getD initial
  if s.length > 0 then s else initial

/-- The `assignments` / `markers` initializer shape (Gantt.tsx 156-199): as
`collectionInit`, but a non-empty stored list is mapped through the defensive
date re-coercion before being returned. -/
def coercingCollectionInit (stored : Option (List α)) (coerce : α → α)
    (initial : List α) : List α :=
  let s := stored.getD initial
  if s.length > 0 then s.map coerce else initial

/-! ## Codec lemmas -/

mutual

/-- A value tree of the spec's round-trip class with no date-typed field and no
plain object shaped like the codec's date marker: strings, numbers, booleans,
null, arrays and objects only. -/
def plainData : Value → Bool
  | .null => true
  | .bool _ => true
  | .num _ => true
  | .str _ => true
  | .date _ => false
  | .arr elems => plainDataList elems
  | .obj fields => !isDateTag fields && plainDataFields fields

/-- `plainData` over the elements of an array. -/
def plainDataList : List Value → Bool
  | [] => true
  | x :: xs => plainData x && plainDataList xs

/-- `plainData` over the entries of an object. -/
def plainDataFields : List (String × Value) → Bool
  | [] => true
  | kv :: rest => plainData kv.2 && plainDataFields rest

end

mutual

theorem convertDates_plain : ∀ (v : Value), plainData v = true → convertDates v = v
  | .null, _ => rfl
  | .bool _, _ => rfl
  | .num _, _ => rfl
  | .str _, _ => rfl
  | .date _, h => by simp [plainData] at h
  | .arr elems, h => by
      rw [convertDates, convertList_plain elems (by simpa [plainData] using h)]
  | .obj fields, h => by
      have h1 : isDateTag fields = false := by
        rcases Bool.eq_false_or_eq_true (isDateTag fields) with h' | h'
        · simp [plainData, h'] at h
        · exact h'
      have h2 : plainDataFields fields = true := by
        simpa [plainData, h1] using h
      rw [convertDates, if_neg (by simp [h1]), convertFields_plain fields h2]

theorem convertList_plain :
    ∀ (l : List Value), plainDataList l = true → convertList l = l
  | [], _ => rfl
  | x :: xs, h => by
      rw [plainDataList, Bool.and_eq_true] at h
      rw [convertList, convertDates_plain x h.1, convertList_plain xs h.2]

theorem convertFields_plain :
    ∀ (l : List (String × Value)), plainDataFields l = true → convertFields l = l
  | [], _ => rfl
  | kv :: rest, h => by
      rw [plainDataFields, Bool.and_eq_true] at h
      rw [convertFields, convertDates_plain kv.2 h.1, convertFields_plain rest h.2]

end

/-! ## Claim theorems: storage codec -/

/-- The concrete input refuting the round-trip law: an object with one
date-typed field, `{ planStartDate: new Date(0) }`. -/
def roundTripInput : Value := .obj [("planStartDate", .date 0)]

/-- C1 (code bug): the round-trip law fails on the code as written.
ECMAScript applies `Date.prototype.toJSON` before the `JSON.stringify`
replacer, so the replacer's `instanceof Date` branch never fires and
`serializeForStorage` emits a plain ISO string for every date-typed field;
`deserializeFromStorage` then finds no date marker and leaves the field a
string.  At the concrete input `{ planStartDate: new Date(0) }` the round
trip returns `{ planStartDate: "<iso of 0>" }`, which is not deep-equal to the
input, and the originally date-typed field comes back as a string. -/
theorem roundTrip_loses_dates :
    deserializeFromStorage (serializeForStorage roundTripInput)
      = Value.obj [("planStartDate", Value.str (isoOfTime 0))] ∧
    Value.obj [("planStartDate", Value.str (isoOfTime 0))] ≠ roundTripInput := by
  constructor
  · rfl
  · intro h
    rw [roundTripInput] at h
    injection h with h1
    injection h1 with h2 _
    injection h2 with _ h3
    exact Value.noConfusion h3

/-- C2 (code bug): `serializeForStorage` never emits the tagged wrapper
`{ __type: "Date", value: <iso> }`.  For every date-typed value, what reaches
the replacer is the ISO string `Date.prototype.toJSON` already produced
(ECMAScript `SerializeJSONProperty` runs `toJSON` before the replacer), so the
emitted encoding is that plain string — different from the wrapper object the
replacer (and the spec) intends. -/
theorem serialize_date_emits_plain_string (t : Int) :
    serializeForStorage (Value.date t) = Value.str (isoOfTime t) ∧
    serializeForStorage (Value.date t) ≠ replacer (Value.date t) := by
  constructor
  · rfl
  · intro h
    rw [serializeForStorage, serStep_eq, replacer] at h
    exact Value.noConfusion h

/-- The concrete already-decoded input refuting idempotence: a plain object
with one native date field, `{ d: new Date(0) }`. -/
def alreadyDecodedInput : Value := .obj [("d", .date 0)]

/-- C8 counterexample: re-running the decoder's recursive conversion on an
already-decoded value corrupts its date fields.  A native `Date` instance is
`typeof "object"`, carries no `__type` property and is not an array, so
`convertDates` falls into the `Object.entries` branch; a `Date` has no own
enumerable properties, so the date comes back as the empty plain object `{}`.
At `{ d: new Date(0) }` the second decode returns `{ d: {} }`. -/
theorem convertDates_corrupts_native_date :
    deserializeFromStorage alreadyDecodedInput
      = Value.obj [("d", Value.obj [])] ∧
    deserializeFromStorage alreadyDecodedInput ≠ alreadyDecodedInput := by
  constructor
  · rfl
  · intro h
    rw [alreadyDecodedInput] at h
    have h' : Value.obj [("d", Value.obj [])] = Value.obj [("d", Value.date 0)] := h
    injection h' with h1
    injection h1 with h2 _
    injection h2 with _ h3
    exact Value.noConfusion h3

/-- C8 amended: re-decoding never throws (`convertDates` is total by
construction), and an already-decoded tree that contains no date-typed field
and no marker-shaped object passes through `convertDates` unchanged; a native
date-typed field, however, is not preserved — it is replaced by the empty
plain object (see `convertDates_corrupts_native_date`). -/
theorem convertDates_plain_id_and_date_corrupt (v : Value)
    (h : plainData v = true) (t : Int) :
    deserializeFromStorage v = v ∧
    deserializeFromStorage (Value.date t) = Value.obj [] := by
  exact ⟨convertDates_plain v h, rfl⟩

/-- Witness for `convertDates_plain_id_and_date_corrupt` at a concrete
already-decoded tree. -/
theorem convertDates_plain_id_witness :
    plainData (Value.obj [("name", Value.str "Officer")]) = true ∧
    (deserializeFromStorage (Value.obj [("name", Value.str "Officer")])
        = Value.obj [("name", Value.str "Officer")] ∧
      deserializeFromStorage (Value.date 7) = Value.obj []) :=
  ⟨rfl, convertDates_plain_id_and_date_corrupt
    (Value.obj [("name", Value.str "Officer")]) rfl 7⟩

/-! ## Grouping lemmas -/

theorem addToGroup_keys (k : String) (x : α) (acc : List (String × List α)) :
    (addToGroup k x acc).map Prod.fst =
      if k ∈ acc.map Prod.fst then acc.map Prod.fst
      else acc.map Prod.fst ++ [k] := by
  induction acc with
  | nil => simp [addToGroup]
  | cons hd tl ih =>
      obtain ⟨k0, ys⟩ := hd
      by_cases hk : k = k0
      · subst hk
        simp [addToGroup]
      · simp only [addToGroup, if_neg hk, List.map_cons, List.mem_cons, ih]
        by_cases hmem : k ∈ tl.map Prod.fst
        · simp [hmem, hk]
        · simp [hmem, hk]

theorem addToGroup_lookup_ne {k' k : String} (h : k' ≠ k) (x : α)
    (acc : List (String × List α)) :
    (addToGroup k x acc).lookup k' = acc.lookup k' := by
  have hfalse : (k' == k) = false := by simp [h]
  induction acc with
  | nil => simp [addToGroup, List.lookup, hfalse]
  | cons hd tl ih =>
      obtain ⟨k0, ys⟩ := hd
      by_cases hk : k = k0
      · subst hk
        simp [addToGroup, List.lookup, hfalse]
      · by_cases hk' : k' = k0
        · subst hk'
          simp [addToGroup, if_neg hk, List.lookup]
        · have h1 : (k' == k0) = false := by simp [hk']
          simp [addToGroup, if_neg hk, List.lookup, h1, ih]

theorem addToGroup_lookup_self (k : String) (x : α)
    (acc : List (String × List α)) :
    (addToGroup k x acc).lookup k = some (((acc.lookup k).getD []) ++ [x]) := by
  induction acc with
  | nil => simp [addToGroup, List.lookup]
  | cons hd tl ih =>
      obtain ⟨k0, ys⟩ := hd
      by_cases hk : k = k0
      · subst hk
        simp [addToGroup, List.lookup]
      · have h1 : (k == k0) = false := by simp [hk]
        simp [addToGroup, if_neg hk, List.lookup, h1, ih]

/-- How one group of a grouping result extends: an existing group gets the
new members appended; a fresh key's group is exactly the new members, and a
key with no members has no group. -/
def optGroup (o : Option (List α)) (fl : List α) : Option (List α) :=
  match o with
  | some g => some (g ++ fl)
  | none => if fl.isEmpty then none else some fl

theorem groupByKey_go_lookup (f : α → String) (l : List α) :
    ∀ (acc : List (String × List α)) (k : String),
      (l.foldl (fun acc x => addToGroup (f x) x acc) acc).lookup k =
        optGroup (acc.lookup k) (l.filter (fun x => f x == k)) := by
  induction l with
  | nil =>
      intro acc k
      simp only [List.foldl_nil, List.filter_nil]
      cases h : acc.lookup k <;> simp [optGroup, h]
  | cons x xs ih =>
      intro acc k
      rw [List.foldl_cons, ih]
      by_cases hk : f x = k
      · subst hk
        rw [addToGroup_lookup_self]
        have hfilter : (x :: xs).filter (fun y => f y == f x) =
            x :: xs.filter (fun y => f y == f x) := by
          simp [List.filter_cons]
        rw [hfilter]
        cases h : acc.lookup (f x) with
        | none => simp [optGroup, h]
        | some g => simp [optGroup, h]
      · have hne : ¬(k = f x) := fun h' => hk h'.symm
        rw [addToGroup_lookup_ne hne]
        have hfilter : (x :: xs).filter (fun y => f y == k) =
            xs.filter (fun y => f y == k) := by
          simp [List.filter_cons, hk]
        rw [hfilter]

theorem groupByKey_lookup (f : α → String) (l : List α) (k : String) :
    (groupByKey f l).lookup k =
      if (l.filter (fun x => f x == k)).isEmpty then none
      else some (l.filter (fun x => f x == k)) := by
  rw [groupByKey, groupByKey_go_lookup]
  simp [List.lookup, optGroup]

theorem groupByKey_keys_nodup (f : α → String) (l : List α) :
    ∀ (acc : List (String × List α)), (acc.map Prod.fst).Nodup →
      ((l.foldl (fun acc x => addToGroup (f x) x acc) acc).map Prod.fst).Nodup := by
  induction l with
  | nil => intro acc h; simpa using h
  | cons x xs ih =>
      intro acc h
      rw [List.foldl_cons]
      apply ih
      rw [addToGroup_keys]
      by_cases hmem : f x ∈ acc.map Prod.fst
      · simpa [hmem] using h
      · simp only [if_neg hmem]
        simp [List.nodup_append, h, hmem]

theorem lookup_eq_some_of_mem_of_keys_nodup {l : List (String × List α)}
    (h : (l.map Prod.fst).Nodup) {k : String} {g : List α}
    (hm : (k, g) ∈ l) : l.lookup k = some g := by
  induction l with
  | nil => cases hm
  | cons hd tl ih =>
      obtain ⟨k0, g0⟩ := hd
      rcases List.mem_cons.mp hm with heq | htl
      · cases heq
        simp [List.lookup]
      · have hk : k ≠ k0 := by
          intro hkk
          subst hkk
          have : k ∈ tl.map Prod.fst :=
            List.mem_map.mpr ⟨(k, g), htl, rfl⟩
          exact (List.nodup_cons.mp (by simpa using h)).1 this
        have h1 : (k == k0) = false := by simp [hk]
        simp only [List.lookup, h1]
        exact ih (List.nodup_cons.mp (by simpa using h)).2 htl

theorem key_mem_of_lookup_some {l : List (String × List α)} {k : String}
    {g : List α} (h : l.lookup k = some g) : k ∈ l.map Prod.fst := by
  induction l with
  | nil => simp [List.lookup] at h
  | cons hd tl ih =>
      obtain ⟨k0, g0⟩ := hd
      by_cases hk : k = k0
      · subst hk; simp
      · have h1 : (k == k0) = false := by simp [hk]
        simp only [List.lookup, h1] at h
        simp [ih h]

theorem flatten_filter_perm (f : α → String) :
    ∀ (ks : List String) (l : List α), ks.Nodup → (∀ x ∈ l, f x ∈ ks) →
      ((ks.map (fun k => l.filter (fun x => f x == k))).flatten).Perm l := by
  intro ks
  induction ks with
  | nil =>
      intro l _ hcov
      cases l with
      | nil => simp
      | cons y ys => exact absurd (hcov y (by simp)) (by simp)
  | cons k0 ks ih =>
      intro l hnd hcov
      have hk0 : k0 ∉ ks := (List.nodup_cons.mp hnd).1
      have hnd' : ks.Nodup := (List.nodup_cons.mp hnd).2
      set l' := l.filter (fun x => !(f x == k0)) with hl'
      have hsame : ∀ k ∈ ks, l.filter (fun x => f x == k) =
          l'.filter (fun x => f x == k) := by
        intro k hk
        rw [hl', List.filter_filter]
        apply List.filter_congr
        intro x _
        by_cases hfx : f x = k
        · have hkk0 : k ≠ k0 := fun h0 => hk0 (h0 ▸ hk)
          simp [hfx, hkk0]
        · simp [hfx]
      have hcov' : ∀ x ∈ l', f x ∈ ks := by
        intro x hx
        rw [hl', List.mem_filter] at hx
        have hne : f x ≠ k0 := by
          intro h0
          rw [h0] at hx
          simp at hx
        rcases List.mem_cons.mp (hcov x hx.1) with h0 | h0
        · exact absurd h0 hne
        · exact h0
      have hmaps : ks.map (fun k => l.filter (fun x => f x == k)) =
          ks.map (fun k => l'.filter (fun x => f x == k)) :=
        List.map_congr_left hsame
      have hflat : ((k0 :: ks).map (fun k => l.filter (fun x => f x == k))).flatten
          = l.filter (fun x => f x == k0) ++
              (ks.map (fun k => l'.filter (fun x => f x == k))).flatten := by
        rw [List.map_cons, List.flatten_cons, hmaps]
      rw [hflat]
      exact (List.Perm.append_left (l.filter (fun x => f x == k0))
        (ih l' hnd' hcov')).trans (List.filter_append_perm _ l)

/-- The grouping invariant of the spec, for a list `l` grouped by the key
`f`: group keys are pairwise distinct (each element lies in exactly one
group, the one keyed by its own key); each group is exactly the sublist of
`l` with that key, in original relative order; no group is empty; every
element's key has a group; and the union of the groups' members is a
permutation of the original list. -/
def GroupingInvariant (f : α → String) (l : List α)
    (groups : List (String × List α)) : Prop :=
  (groups.map Prod.fst).Nodup ∧
  (∀ p ∈ groups, p.2 = l.filter (fun x => f x == p.1)) ∧
  (∀ p ∈ groups, p.2 ≠ []) ∧
  (∀ x ∈ l, f x ∈ groups.map Prod.fst) ∧
  ((groups.map Prod.snd).flatten).Perm l

theorem groupByKey_invariant (f : α → String) (l : List α) :
    GroupingInvariant f l (groupByKey f l) := by
  have hnodup : ((groupByKey f l).map Prod.fst).Nodup :=
    groupByKey_keys_nodup f l [] (by simp)
  have hgroups : ∀ p ∈ groupByKey f l,
      p.2 = l.filter (fun x => f x == p.1) ∧ p.2 ≠ [] := by
    intro p hp
    obtain ⟨k, g⟩ := p
    show g = l.filter (fun x => f x == k) ∧ g ≠ []
    have hlk : (groupByKey f l).lookup k = some g :=
      lookup_eq_some_of_mem_of_keys_nodup hnodup hp
    rw [groupByKey_lookup] at hlk
    by_cases hemp : (l.filter (fun x => f x == k)).isEmpty
    · rw [if_pos hemp] at hlk
      cases hlk
    · rw [if_neg hemp] at hlk
      have hg : g = l.filter (fun x => f x == k) := (Option.some.inj hlk).symm
      refine ⟨hg, ?_⟩
      rw [hg]
      intro hnil
      exact hemp (List.isEmpty_iff.mpr hnil)
  have hcov : ∀ x ∈ l, f x ∈ (groupByKey f l).map Prod.fst := by
    intro x hx
    have hne : ¬(l.filter (fun y => f y == f x)).isEmpty := by
      rw [List.isEmpty_iff]
      intro hnil
      have : x ∈ l.filter (fun y => f y == f x) :=
        List.mem_filter.mpr ⟨hx, by simp⟩
      rw [hnil] at this
      cases this
    have : (groupByKey f l).lookup (f x) =
        some (l.filter (fun y => f y == f x)) := by
      rw [groupByKey_lookup, if_neg hne]
    exact key_mem_of_lookup_some this
  refine ⟨hnodup, fun p hp => (hgroups p hp).1, fun p hp => (hgroups p hp).2,
    hcov, ?_⟩
  have hsnd : (groupByKey f l).map Prod.snd =
      ((groupByKey f l).map Prod.fst).map
        (fun k => l.filter (fun x => f x == k)) := by
    rw [List.map_map]
    exact List.map_congr_left (fun p hp => (hgroups p hp).1)
  rw [hsnd]
  exact flatten_filter_perm f ((groupByKey f l).map Prod.fst) l hnodup hcov

/-- C3: grouping RankPlans by `rankId` (and Assignments by `rankPlanId`)
places each element in exactly one group keyed by its foreign-key field
(group keys are pairwise distinct and each group holds exactly the elements
bearing its key), the union of all groups' members is the original list,
order within each group matches the original relative order (each group is
the order-preserving filter of the original list), and no group exists for a
key with zero members. -/
theorem grouping_by_foreign_key (rankPlans : List RankPlan)
    (assignments : List Assignment) :
    GroupingInvariant (fun rp => rp.rankId) rankPlans
        (rankPlansByRank rankPlans) ∧
    GroupingInvariant (fun a => a.rankPlanId) assignments
        (assignmentsByRankPlan assignments) :=
  ⟨groupByKey_invariant _ _, groupByKey_invariant _ _⟩

/-! ## Span derivation lemmas -/

theorem foldl_min_mem (xs : List Int) : ∀ (x : Int), xs.foldl min x ∈ x :: xs := by
  induction xs with
  | nil => intro x; simp
  | cons y ys ih =>
      intro x
      rw [List.foldl_cons]
      rcases List.mem_cons.mp (ih (min x y)) with h | h
      · rcases min_choice x y with hm | hm
        · rw [hm] at h
          simp [hm, h]
        · rw [hm] at h
          simp [hm, h]
      · simp [h]

theorem foldl_min_le (xs : List Int) :
    ∀ (x : Int), ∀ d ∈ x :: xs, xs.foldl min x ≤ d := by
  induction xs with
  | nil =>
      intro x d hd
      simp at hd
      simp [hd]
  | cons y ys ih =>
      intro x d hd
      rw [List.foldl_cons]
      rcases List.mem_cons.mp hd with h | h
      · exact le_trans (ih (min x y) (min x y) (by simp)) (h ▸ min_le_left x y)
      · rcases List.mem_cons.mp h with h' | h'
        · exact le_trans (ih (min x y) (min x y) (by simp)) (h' ▸ min_le_right x y)
        · exact ih (min x y) d (by simp [h'])

theorem foldl_max_mem (xs : List Int) : ∀ (x : Int), xs.foldl max x ∈ x :: xs := by
  induction xs with
  | nil => intro x; simp
  | cons y ys ih =>
      intro x
      rw [List.foldl_cons]
      rcases List.mem_cons.mp (ih (max x y)) with h | h
      · rcases max_choice x y with hm | hm
        · rw [hm] at h
          simp [hm, h]
        · rw [hm] at h
          simp [hm, h]
      · simp [h]

theorem foldl_le_max (xs : List Int) :
    ∀ (x : Int), ∀ d ∈ x :: xs, d ≤ xs.foldl max x := by
  induction xs with
  | nil =>
      intro x d hd
      simp at hd
      simp [hd]
  | cons y ys ih =>
      intro x d hd
      rw [List.foldl_cons]
      rcases List.mem_cons.mp hd with h | h
      · exact le_trans (h ▸ le_max_left x y) (ih (max x y) (max x y) (by simp))
      · rcases List.mem_cons.mp h with h' | h'
        · exact le_trans (h' ▸ le_max_right x y) (ih (max x y) (max x y) (by simp))
        · exact ih (max x y) d (by simp [h'])

theorem jsMathMin_spec (xs : List Int) (h : xs ≠ []) :
    jsMathMin xs ∈ xs ∧ ∀ d ∈ xs, jsMathMin xs ≤ d := by
  cases xs with
  | nil => exact absurd rfl h
  | cons x rest =>
      rw [jsMathMin]
      exact ⟨foldl_min_mem rest x, foldl_min_le rest x⟩

theorem jsMathMax_spec (xs : List Int) (h : xs ≠ []) :
    jsMathMax xs ∈ xs ∧ ∀ d ∈ xs, d ≤ jsMathMax xs := by
  cases xs with
  | nil => exact absurd rfl h
  | cons x rest =>
      rw [jsMathMax]
      exact ⟨foldl_max_mem rest x, foldl_le_max rest x⟩

/-- C4: the representative span of a rank plan.  With at least one assignment,
the span start is the minimum `planStartDate` over the plan's assignments (it
is one of them and is a lower bound of all of them) and the span end is the
maximum `planEndDate` (one of them, an upper bound of all of them); with zero
assignments, span start and span end both equal `today`, the current time
taken at projection. -/
theorem representativeFeature_span (rankPlan : RankPlan)
    (planAssignments : List Assignment) (today : Int) :
    (planAssignments = [] →
      (representativeFeature rankPlan planAssignments today).startAt = today ∧
      (representativeFeature rankPlan planAssignments today).endAt = today) ∧
    (planAssignments ≠ [] →
      ((representativeFeature rankPlan planAssignments today).startAt ∈
          planAssignments.map (fun a => a.planStartDate) ∧
        ∀ d ∈ planAssignments.map (fun a => a.planStartDate),
          (representativeFeature rankPlan planAssignments today).startAt ≤ d) ∧
      ((representativeFeature rankPlan planAssignments today).endAt ∈
          planAssignments.map (fun a => a.planEndDate) ∧
        ∀ d ∈ planAssignments.map (fun a => a.planEndDate),
          d ≤ (representativeFeature rankPlan planAssignments today).endAt)) := by
  constructor
  · intro h
    subst h
    simp [representativeFeature]
  · intro h
    have hlen : planAssignments.length > 0 := List.length_pos.mpr h
    have hmapne : planAssignments.map (fun a => a.planStartDate) ≠ [] := by
      simp [List.map_eq_nil_iff, h]
    have hmapne2 : planAssignments.map (fun a => a.planEndDate) ≠ [] := by
      simp [List.map_eq_nil_iff, h]
    have hstart : (representativeFeature rankPlan planAssignments today).startAt =
        jsMathMin (planAssignments.map (fun a => a.planStartDate)) := by
      simp [representativeFeature, hlen]
    have hend : (representativeFeature rankPlan planAssignments today).endAt =
        jsMathMax (planAssignments.map (fun a => a.planEndDate)) := by
      simp [representativeFeature, hlen]
    rw [hstart, hend]
    exact ⟨jsMathMin_spec _ hmapne, jsMathMax_spec _ hmapne2⟩

/-! ## Concrete example entities for witnesses and counterexamples -/

/-- A concrete `Rank`. -/
def rankEx : Rank := { id := "r1", name := "Officer" }

/-- A concrete `RankPlan` under `rankEx`. -/
def rankPlanEx : RankPlan := { id := "p1", name := "2024 Plan", rankId := "r1" }

/-- A concrete `Assignment` under `rankPlanEx`. -/
def assignmentEx : Assignment :=
  { id := "a1", name := some "Alice", type := .main, planStartDate := 10,
    planEndDate := 20, actualStartDate := none, actualEndDate := none,
    rankPlanId := "p1" }

/-- A second concrete `Assignment` under `rankPlanEx`. -/
def assignmentEx2 : Assignment :=
  { id := "a2", name := none, type := .reliever, planStartDate := 5,
    planEndDate := 30, actualStartDate := some 6, actualEndDate := none,
    rankPlanId := "p1" }

/-- A concrete `Marker`. -/
def markerEx : Marker :=
  { id := "m1", date := 3, label := "New Marker",
    className := some "bg-blue-100 text-blue-900" }

/-- Witness for `representativeFeature_span`: at zero assignments both span
ends are `today` (= 7); at the two concrete assignments the span start is 5
(the least `planStartDate`, a member and lower bound) and the span end is 30
(the greatest `planEndDate`, a member and upper bound). -/
theorem representativeFeature_span_witness :
    ((representativeFeature rankPlanEx [] 7).startAt = 7 ∧
      (representativeFeature rankPlanEx [] 7).endAt = 7) ∧
    (((representativeFeature rankPlanEx [assignmentEx, assignmentEx2] 7).startAt ∈
        [assignmentEx, assignmentEx2].map (fun a => a.planStartDate) ∧
      ∀ d ∈ [assignmentEx, assignmentEx2].map (fun a => a.planStartDate),
        (representativeFeature rankPlanEx [assignmentEx, assignmentEx2] 7).startAt ≤ d) ∧
      ((representativeFeature rankPlanEx [assignmentEx, assignmentEx2] 7).endAt ∈
        [assignmentEx, assignmentEx2].map (fun a => a.planEndDate) ∧
      ∀ d ∈ [assignmentEx, assignmentEx2].map (fun a => a.planEndDate),
        d ≤ (representativeFeature rankPlanEx [assignmentEx, assignmentEx2] 7).endAt)) :=
  ⟨(representativeFeature_span rankPlanEx [] 7).1 rfl,
    (representativeFeature_span rankPlanEx [assignmentEx, assignmentEx2] 7).2
      (by simp)⟩

/-! ## Claim theorems: load, update, delete -/

/-- C5: for every stored snapshot text and every collection key, the startup
load either returns the decoded snapshot (`deserializeFromStorage` of the
parsed text) or, when the entry is absent, empty, or its parse fails, the
supplied default; and it never raises — the embedding is a total function, the
`try`/`catch` of `loadFromStorage` turning every failure into the default. -/
theorem loadFromStorage_decoded_or_default (parse : String → Option Value)
    (getItem : String → Option String) (key : String) (defaultValue : Value) :
    loadFromStorage parse getItem key defaultValue = defaultValue ∨
    ∃ text parsed, getItem key = some text ∧ parse text = some parsed ∧
      loadFromStorage parse getItem key defaultValue =
        deserializeFromStorage parsed := by
  cases hget : getItem key with
  | none => simp [loadFromStorage, hget]
  | some text =>
      by_cases htext : text ≠ ""
      · simp only [loadFromStorage, hget]
        rw [if_pos htext]
        cases hparse : parse text with
        | none => exact Or.inl rfl
        | some parsed => exact Or.inr ⟨text, parsed, rfl, hparse, rfl⟩
      · simp only [loadFromStorage, hget]
        rw [if_neg htext]
        exact Or.inl rfl

/-- C6: an edit-save (update) whose id is absent from the collection is a
no-op for Ranks, RankPlans and Assignments alike: the `prev.map` replaces
only the entity whose id matches, so with no match every element is returned
unchanged, and no error is raised (the embedding is total). -/
theorem update_missing_id_noop (id : String)
    (rankPrev : List Rank) (rankData : RankData)
    (planPrev : List RankPlan) (planData : RankPlanData)
    (asgPrev : List Assignment) (asgData : AssignmentData)
    (hr : ∀ r ∈ rankPrev, r.id ≠ id)
    (hp : ∀ rp ∈ planPrev, rp.id ≠ id)
    (ha : ∀ a ∈ asgPrev, a.id ≠ id) :
    handleSaveRankEditing id rankData rankPrev = rankPrev ∧
    handleSaveRankPlanEditing id planData planPrev = planPrev ∧
    handleSaveAssignmentEditing id asgData asgPrev = asgPrev := by
  refine ⟨?_, ?_, ?_⟩
  · rw [handleSaveRankEditing]
    conv_rhs => rw [← List.map_id rankPrev]
    apply List.map_congr_left
    intro r hrmem
    simp [hr r hrmem]
  · rw [handleSaveRankPlanEditing]
    conv_rhs => rw [← List.map_id planPrev]
    apply List.map_congr_left
    intro rp hrpmem
    simp [hp rp hrpmem]
  · rw [handleSaveAssignmentEditing]
    conv_rhs => rw [← List.map_id asgPrev]
    apply List.map_congr_left
    intro a hamem
    simp [ha a hamem]

/-- Witness for `update_missing_id_noop` at concrete collections and an
absent id. -/
theorem update_missing_id_noop_witness :
    handleSaveRankEditing "zz" { name := "N" } [rankEx] = [rankEx] ∧
    handleSaveRankPlanEditing "zz" { name := "P", rankId := "r1" } [rankPlanEx]
      = [rankPlanEx] ∧
    handleSaveAssignmentEditing "zz"
      { name := none, type := .main, planStartDate := 1, planEndDate := 2,
        actualStartDate := none, actualEndDate := none, rankPlanId := "p1" }
      [assignmentEx] = [assignmentEx] :=
  update_missing_id_noop "zz" [rankEx] _ [rankPlanEx] _ [assignmentEx] _
    (by decide) (by decide) (by decide)

/-- C7: deleting an Assignment by id removes exactly the entities with that
id: the result is a sublist of the original (all other entries unchanged, in
their original order), contains no entity with the deleted id, preserves the
multiplicity of every entity with a different id, and if no entity has the
id the list is exactly unchanged. -/
theorem delete_assignment_exact (id : String) (prev : List Assignment) :
    (handleDeleteAssignment id prev).Sublist prev ∧
    (∀ a ∈ handleDeleteAssignment id prev, a.id ≠ id) ∧
    (∀ a : Assignment, a.id ≠ id →
      (handleDeleteAssignment id prev).count a = prev.count a) ∧
    ((∀ a ∈ prev, a.id ≠ id) → handleDeleteAssignment id prev = prev) := by
  refine ⟨List.filter_sublist prev, ?_, ?_, ?_⟩
  · intro a ha
    have := (List.mem_filter.mp ha).2
    simpa using this
  · intro a hne
    exact List.count_filter (by simpa using hne)
  · intro h
    apply List.filter_eq_self.mpr
    intro a ha
    simpa using h a ha

/-- Witness for `delete_assignment_exact` at a concrete list: deleting `"a1"`
from `[assignmentEx, assignmentEx2]` keeps exactly `assignmentEx2`. -/
theorem delete_assignment_exact_witness :
    (handleDeleteAssignment "a1" [assignmentEx, assignmentEx2]).Sublist
        [assignmentEx, assignmentEx2] ∧
    (∀ a ∈ handleDeleteAssignment "a1" [assignmentEx, assignmentEx2],
        a.id ≠ "a1") ∧
    ((assignmentEx2.id ≠ "a1" →
      (handleDeleteAssignment "a1" [assignmentEx, assignmentEx2]).count
          assignmentEx2
        = [assignmentEx, assignmentEx2].count assignmentEx2) ∧
      ((∀ a ∈ [assignmentEx2], a.id ≠ "a1") →
        handleDeleteAssignment "a1" [assignmentEx2] = [assignmentEx2])) :=
  ⟨(delete_assignment_exact "a1" [assignmentEx, assignmentEx2]).1,
    (delete_assignment_exact "a1" [assignmentEx, assignmentEx2]).2.1,
    (delete_assignment_exact "a1" [assignmentEx, assignmentEx2]).2.2.1
      assignmentEx2,
    (delete_assignment_exact "a1" [assignmentEx2]).2.2.2⟩

/-! ## Claim theorems: clear command and startup initialization -/

/-- A populated application state: all four collections non-empty. -/
def populatedState : AppState :=
  { storage := fun _ => none
    ranks := [rankEx]
    rankPlans := [rankPlanEx]
    assignments := [assignmentEx]
    markers := [markerEx] }

/-- C9 counterexample: after the confirmed clear command, the persisted
entries are not left absent.  The four persistence effects (Gantt.tsx
217-231) run after the state update that the clear command itself performs,
and re-create each entry with the encoded empty collection; concretely,
starting from `populatedState`, after the clear command and the following
persistence mirror the `"gantt-ranks"` entry is present (it holds the encoded
empty array), contradicting the claim that all four persisted entries are
absent. -/
theorem clear_then_mirror_entry_present :
    (persistenceEffects (handleClearStorage true populatedState)).storage
        "gantt-ranks" ≠ none ∧
    (persistenceEffects (handleClearStorage true populatedState)).storage
        "gantt-ranks" = some (Value.arr []) := by
  constructor
  · intro h
    rw [show (persistenceEffects (handleClearStorage true populatedState)).storage
          "gantt-ranks" = some (Value.arr []) from rfl] at h
    cases h
  · rfl

/-- C9 amended: the confirmed clear command empties all four in-memory
collections and removes all four persisted entries; immediately afterwards,
however, the persistence effects that mirror every state change re-create
each of the four entries with the encoded empty collection, so in the settled
state the entries are present (each holding an encoded empty list), not
absent. -/
theorem clear_storage_amended (s : AppState) :
    ((handleClearStorage true s).ranks = [] ∧
      (handleClearStorage true s).rankPlans = [] ∧
      (handleClearStorage true s).assignments = [] ∧
      (handleClearStorage true s).markers = []) ∧
    ((handleClearStorage true s).storage "gantt-ranks" = none ∧
      (handleClearStorage true s).storage "gantt-rankPlans" = none ∧
      (handleClearStorage true s).storage "gantt-assignments" = none ∧
      (handleClearStorage true s).storage "gantt-markers" = none) ∧
    ((persistenceEffects (handleClearStorage true s)).ranks = [] ∧
      (persistenceEffects (handleClearStorage true s)).rankPlans = [] ∧
      (persistenceEffects (handleClearStorage true s)).assignments = [] ∧
      (persistenceEffects (handleClearStorage true s)).markers = []) ∧
    ((persistenceEffects (handleClearStorage true s)).storage "gantt-ranks"
        = some (Value.arr []) ∧
      (persistenceEffects (handleClearStorage true s)).storage "gantt-rankPlans"
        = some (Value.arr []) ∧
      (persistenceEffects (handleClearStorage true s)).storage "gantt-assignments"
        = some (Value.arr []) ∧
      (persistenceEffects (handleClearStorage true s)).storage "gantt-markers"
        = some (Value.arr [])) := by
  refine ⟨⟨rfl, rfl, rfl, rfl⟩, ⟨?_, ?_, ?_, ?_⟩, ⟨rfl, rfl, rfl, rfl⟩,
    ⟨?_, ?_, ?_, ?_⟩⟩ <;>
    simp [handleClearStorage, persistenceEffects, removeItem, setItem,
      serializeForStorage, serializeList]

/-! ### Startup initialization (Gantt.tsx 145-199) -/

/-- The defensive date re-coercion of a stored assignment (Gantt.tsx
163-183).  Each date field is `x instanceof Date ? x : new Date(x)`; in the
typed representation every date field is date-typed, so each test takes the
first branch; the optional fields go through `a.actual… ? … : undefined`,
which keeps an absent field absent. -/
def coerceAssignmentDates (a : Assignment) : Assignment :=
  { id := a.id
    name := a.name
    type := a.type
    planStartDate := a.planStartDate
    planEndDate := a.planEndDate
    actualStartDate := match a.actualStartDate with
                       | some d => some d
                       | none => none
    actualEndDate := match a.actualEndDate with
                     | some d => some d
                     | none => none
    rankPlanId := a.rankPlanId }

/-- The defensive date re-coercion of a stored marker (Gantt.tsx 192-196):
`marker.date instanceof Date ? marker.date : new Date(marker.date)`, the
first branch in the typed representation. -/
def coerceMarkerDate (m : Marker) : Marker :=
  { id := m.id, date := m.date, label := m.label, className := m.className }

/-- The `ranks` initializer (Gantt.tsx 145-148). -/
def ranksInit (stored : Option (List Rank)) (initialRanks : List Rank) :
    List Rank :=
  collectionInit stored initialRanks

/-- The `rankPlans` initializer (Gantt.tsx 149-155). -/
def rankPlansInit (stored : Option (List RankPlan))
    (initialRankPlans : List RankPlan) : List RankPlan :=
  collectionInit stored initialRankPlans

/-- The `assignments` initializer (Gantt.tsx 156-186). -/
def assignmentsInit (stored : Option (List Assignment))
    (initialAssignments : List Assignment) : List Assignment :=
  coercingCollectionInit stored coerceAssignmentDates initialAssignments

/-- The `markers` initializer (Gantt.tsx 187-199). -/
def markersInit (stored : Option (List Marker))
    (initialMarkers : List Marker) : List Marker :=
  coercingCollectionInit stored coerceMarkerDate initialMarkers

theorem coerceAssignmentDates_id (a : Assignment) :
    coerceAssignmentDates a = a := by
  cases a with
  | mk id name type ps pe as ae rp =>
      cases as <;> cases ae <;> rfl

theorem coerceMarkerDate_id (m : Marker) : coerceMarkerDate m = m := by
  cases m
  rfl

/-- C10: at startup, a persisted snapshot that decodes to an empty list makes
every collection initialize from the caller-supplied initial values (the
`stored.length > 0` test rejects the decoded empty list), exactly as an
absent or corrupt snapshot does (where `loadFromStorage` already returned the
initial values) — the two cases produce identical state for all four
collections. -/
theorem empty_snapshot_matches_absent (initialRanks : List Rank)
    (initialRankPlans : List RankPlan) (initialAssignments : List Assignment)
    (initialMarkers : List Marker) :
    (ranksInit (some []) initialRanks = initialRanks ∧
      ranksInit none initialRanks = initialRanks) ∧
    (rankPlansInit (some []) initialRankPlans = initialRankPlans ∧
      rankPlansInit none initialRankPlans = initialRankPlans) ∧
    (assignmentsInit (some []) initialAssignments = initialAssignments ∧
      assignmentsInit none initialAssignments = initialAssignments) ∧
    (markersInit (some []) initialMarkers = initialMarkers ∧
      markersInit none initialMarkers = initialMarkers) := by
  refine ⟨⟨rfl, ?_⟩, ⟨rfl, ?_⟩, ⟨rfl, ?_⟩, ⟨rfl, ?_⟩⟩
  · rw [ranksInit, collectionInit]
    by_cases h : initialRanks.length > 0 <;> simp [h]
  · rw [rankPlansInit, collectionInit]
    by_cases h : initialRankPlans.length > 0 <;> simp [h]
  · rw [assignmentsInit, coercingCollectionInit]
    by_cases h : initialAssignments.length > 0
    · simp only [Option.getD_none, if_pos h]
      exact List.map_congr_left (fun a _ => coerceAssignmentDates_id a) |>.trans
        (List.map_id initialAssignments)
    · simp [h]
  · rw [markersInit, coercingCollectionInit]
    by_cases h : initialMarkers.length > 0
    · simp only [Option.getD_none, if_pos h]
      exact List.map_congr_left (fun m _ => coerceMarkerDate_id m) |>.trans
        (List.map_id initialMarkers)
    · simp [h]
